import Mathlib

/-!
Verification of the IMAP granular access proxy core
(`src/imap_granular_access_proxy/forwarding.py` and `server.py`).

Byte strings (`bytes` in Python) are modelled as `List Nat`; Python dicts
keyed by byte strings are modelled as association lists together with
dict-style operations (`alookup`, `aset`, `aerase`).  All definitions are
executable, so concrete scenarios can be settled by `decide` / `rfl`.
-/

/-- Python `bytes` values: a list of byte values. -/
abbrev Bytes := List Nat

/-- Byte value of the space character `SP`. -/
def spByte : Nat := 32

/-- Byte value of the asterisk character, which starts untagged responses. -/
def starByte : Nat := 42

/-- Byte value of the plus character, which starts continuation requests. -/
def plusByte : Nat := 43

section AssocList

variable {V : Type}

/-- Dict lookup `d.get(k)`: the value bound to the first occurrence of `k`. -/
def alookup : List (Bytes × V) → Bytes → Option V
  | [], _ => none
  | (k', v) :: t, k => if k' = k then some v else alookup t k

/-- Dict update `d[k] = v`: replace the binding of `k` in place, or append a
new binding at the end, as a Python dict does. -/
def aset (k : Bytes) (v : V) : List (Bytes × V) → List (Bytes × V)
  | [] => [(k, v)]
  | (k', v') :: t => if k' = k then (k, v) :: t else (k', v') :: aset k v t

/-- Dict deletion `del d[k]` / `d.pop(k, None)`: drop every binding of `k`
(on states with unique keys, exactly the Python behaviour). -/
def aerase (k : Bytes) (l : List (Bytes × V)) : List (Bytes × V) :=
  l.filter (fun p => decide (p.1 ≠ k))

theorem alookup_aset_self (k : Bytes) (v : V) (l : List (Bytes × V)) :
    alookup (aset k v l) k = some v := by
  induction l with
  | nil => simp [aset, alookup]
  | cons p t ih =>
    obtain ⟨k', v'⟩ := p
    by_cases h : k' = k
    · simp [aset, h, alookup]
    · simp [aset, h, alookup, ih]

theorem alookup_aset_ne (k k' : Bytes) (v : V) (l : List (Bytes × V))
    (h : k' ≠ k) : alookup (aset k v l) k' = alookup l k' := by
  have h' : k ≠ k' := Ne.symm h
  induction l with
  | nil => simp [aset, alookup, h']
  | cons p t ih =>
    obtain ⟨k'', v'⟩ := p
    by_cases hk : k'' = k
    · subst hk
      simp [aset, alookup, h']
    · by_cases hk2 : k'' = k'
      · simp [aset, hk, alookup, hk2, h]
      · simp [aset, hk, alookup, hk2, ih]

theorem alookup_aerase_self (k : Bytes) (l : List (Bytes × V)) :
    alookup (aerase k l) k = none := by
  induction l with
  | nil => simp [aerase, alookup]
  | cons p t ih =>
    obtain ⟨k', v'⟩ := p
    by_cases h : k' = k
    · simpa [aerase, List.filter_cons, h] using ih
    · simpa [aerase, List.filter_cons, h, alookup] using ih

theorem alookup_aerase_ne (k k' : Bytes) (l : List (Bytes × V))
    (h : k' ≠ k) : alookup (aerase k l) k' = alookup l k' := by
  have h' : k ≠ k' := Ne.symm h
  induction l with
  | nil => simp [aerase, alookup]
  | cons p t ih =>
    obtain ⟨k'', v'⟩ := p
    by_cases hk : k'' = k
    · subst hk
      simpa [aerase, List.filter_cons, alookup, h'] using ih
    · by_cases hk2 : k'' = k'
      · simp [aerase, List.filter_cons, alookup, hk, hk2, h]
      · simpa [aerase, List.filter_cons, alookup, hk, hk2] using ih

/-- Convenience: erasing then looking up another key, stated via cases. -/
theorem alookup_aerase (k k' : Bytes) (l : List (Bytes × V)) :
    alookup (aerase k l) k' = if k' = k then none else alookup l k' := by
  by_cases h : k' = k
  · subst h; simp [alookup_aerase_self]
  · simp [h, alookup_aerase_ne k k' l h]

end AssocList

section DecimalTags

/-- Big-endian decimal digits of `n`, computed with explicit fuel so the
kernel can evaluate it (`n + 1` units of fuel always suffice). -/
def toDecimalAux : Nat → Nat → List Nat
  | 0, _ => []
  | fuel + 1, n => if n < 10 then [n] else toDecimalAux fuel (n / 10) ++ [n % 10]

/-- Big-endian decimal digits of `n` (e.g. `toDecimal 407 = [4, 0, 7]`). -/
def toDecimal (n : Nat) : List Nat := toDecimalAux (n + 1) n

theorem toDecimalAux_fuel (f g n : Nat) (hf : n < f) (hg : n < g) :
    toDecimalAux f n = toDecimalAux g n := by
  induction n using Nat.strong_induction_on generalizing f g with
  | _ n ih =>
    match f, g with
    | f' + 1, g' + 1 =>
      by_cases h : n < 10
      · simp [toDecimalAux, h]
      · have hdiv : n / 10 < n := Nat.div_lt_self (by omega) (by omega)
        have h1 : n / 10 < f' := by omega
        have h2 : n / 10 < g' := by omega
        simp only [toDecimalAux, h, if_false]
        rw [ih (n / 10) hdiv f' g' h1 h2]

/-- Unfolding equation for `toDecimal`. -/
theorem toDecimal_eq (n : Nat) :
    toDecimal n = if n < 10 then [n] else toDecimal (n / 10) ++ [n % 10] := by
  have step : toDecimalAux (n + 1) n
      = if n < 10 then [n] else toDecimalAux n (n / 10) ++ [n % 10] := rfl
  by_cases h : n < 10
  · rw [show toDecimal n = toDecimalAux (n + 1) n from rfl, step]
    simp [h]
  · rw [show toDecimal n = toDecimalAux (n + 1) n from rfl, step]
    simp only [h, if_false]
    have hdiv : n / 10 < n := Nat.div_lt_self (by omega) (by omega)
    rw [toDecimalAux_fuel n (n / 10 + 1) (n / 10) (by omega) (by omega)]
    rfl

/-- Numeric value of a big-endian list of decimal digits. -/
def ofDec (ds : List Nat) : Nat := ds.foldl (fun a d => a * 10 + d) 0

theorem ofDec_foldl (acc : Nat) (ds : List Nat) :
    ds.foldl (fun a d => a * 10 + d) acc = acc * 10 ^ ds.length + ofDec ds := by
  induction ds generalizing acc with
  | nil => simp [ofDec]
  | cons d t ih =>
    simp only [List.foldl_cons, List.length_cons, ofDec] at *
    rw [ih (acc * 10 + d), ih (0 * 10 + d)]
    ring

theorem ofDec_cons (d : Nat) (ds : List Nat) :
    ofDec (d :: ds) = d * 10 ^ ds.length + ofDec ds := by
  have h1 : ofDec (d :: ds)
      = ds.foldl (fun a d => a * 10 + d) (0 * 10 + d) := rfl
  rw [h1, ofDec_foldl]
  ring_nf

theorem ofDec_append_digit (ds : List Nat) (d : Nat) :
    ofDec (ds ++ [d]) = ofDec ds * 10 + d := by
  simp only [ofDec, List.foldl_append, List.foldl_cons, List.foldl_nil]

theorem ofDec_toDecimal (n : Nat) : ofDec (toDecimal n) = n := by
  induction n using Nat.strong_induction_on with
  | _ n ih =>
    rw [toDecimal_eq]
    by_cases h : n < 10
    · simp [h, ofDec]
    · have hdiv : n / 10 < n := Nat.div_lt_self (by omega) (by omega)
      simp only [h, if_false]
      rw [ofDec_append_digit, ih (n / 10) hdiv]
      omega

theorem toDecimal_digits_lt (n : Nat) : ∀ d ∈ toDecimal n, d < 10 := by
  induction n using Nat.strong_induction_on with
  | _ n ih =>
    rw [toDecimal_eq]
    by_cases h : n < 10
    · intro d hd
      simp only [h, if_true, List.mem_singleton] at hd
      omega
    · have hdiv : n / 10 < n := Nat.div_lt_self (by omega) (by omega)
      simp only [h, if_false]
      intro d hd
      rcases List.mem_append.mp hd with h1 | h2
      · exact ih (n / 10) hdiv d h1
      · simp only [List.mem_singleton] at h2
        omega

theorem toDecimal_length_pos (n : Nat) : 1 ≤ (toDecimal n).length := by
  rw [toDecimal_eq]
  by_cases h : n < 10 <;> simp [h]

theorem toDecimal_length_mono {m n : Nat} (h : m ≤ n) :
    (toDecimal m).length ≤ (toDecimal n).length := by
  induction n using Nat.strong_induction_on generalizing m with
  | _ n ih =>
    by_cases hn : n < 10
    · have hm : m < 10 := by omega
      rw [toDecimal_eq m, toDecimal_eq n]
      simp [hm, hn]
    · by_cases hm : m < 10
      · have h1 : (toDecimal m).length = 1 := by
          rw [toDecimal_eq]
          simp [hm]
        rw [h1]
        exact toDecimal_length_pos n
      · have hdiv : n / 10 < n := Nat.div_lt_self (by omega) (by omega)
        have hmn : m / 10 ≤ n / 10 := Nat.div_le_div_right h
        have hrec := ih (n / 10) hdiv hmn
        rw [toDecimal_eq m, toDecimal_eq n]
        simp only [hm, hn, if_false, List.length_append, List.length_cons,
          List.length_nil]
        omega

end DecimalTags

section TagOrder

/-- Left-pad a digit list with zeros to width `w` (Python `%04d` padding). -/
def padLeft (w : Nat) (ds : List Nat) : List Nat :=
  List.replicate (w - ds.length) 0 ++ ds

/-- The proxy upstream tag for counter value `n`: the bytes of
Python `f"P{n:04d}".encode("ascii")` (`80 = 'P'`, `48 = '0'`). -/
def pTag (n : Nat) : Bytes :=
  80 :: (padLeft 4 (toDecimal n)).map (fun d => d + 48)

theorem ofDec_padLeft (w : Nat) (ds : List Nat) :
    ofDec (padLeft w ds) = ofDec ds := by
  unfold padLeft
  induction w - ds.length with
  | zero => simp
  | succ k ih =>
    rw [List.replicate_succ, List.cons_append]
    rw [ofDec_cons, ih]
    simp

theorem padLeft_length (w : Nat) (ds : List Nat) :
    (padLeft w ds).length = max w ds.length := by
  simp [padLeft]
  omega

theorem pTag_inj {m n : Nat} (h : pTag m = pTag n) : m = n := by
  have h1 : (padLeft 4 (toDecimal m)).map (fun d => d + 48)
      = (padLeft 4 (toDecimal n)).map (fun d => d + 48) := by
    simpa [pTag] using h
  have h2 : padLeft 4 (toDecimal m) = padLeft 4 (toDecimal n) := by
    have hinj : Function.Injective (fun d : Nat => d + 48) := by
      intro a b hab
      simpa using hab
    exact List.map_injective_iff.mpr hinj h1
  have h3 : ofDec (padLeft 4 (toDecimal m)) = ofDec (padLeft 4 (toDecimal n)) := by
    rw [h2]
  rw [ofDec_padLeft, ofDec_padLeft, ofDec_toDecimal, ofDec_toDecimal] at h3
  exact h3

/-- Strict lexicographic order on byte lists, as a Boolean function. -/
def lexLtB : List Nat → List Nat → Bool
  | [], [] => false
  | [], _ :: _ => true
  | _ :: _, [] => false
  | a :: as, b :: bs => a < b || (a == b && lexLtB as bs)

/-- Length-then-lexicographic (shortlex) strict order on byte lists.  On the
zero-padded decimal tags produced by the pipeline it coincides with the
numeric order of the counters. -/
def shortLexB (a b : List Nat) : Bool :=
  a.length < b.length || (a.length == b.length && lexLtB a b)

theorem ofDec_lt_pow (ds : List Nat) (h : ∀ d ∈ ds, d < 10) :
    ofDec ds < 10 ^ ds.length := by
  induction ds with
  | nil => simp [ofDec]
  | cons z zs ih =>
    rw [ofDec_cons]
    have hz : z < 10 := h z (by simp)
    have hzs : ofDec zs < 10 ^ zs.length := ih (fun d hd => h d (by simp [hd]))
    have h9 : z ≤ 9 := by omega
    have hmul : z * 10 ^ zs.length ≤ 9 * 10 ^ zs.length :=
      Nat.mul_le_mul_right (10 ^ zs.length) h9
    have hpow : 10 ^ (zs.length + 1) = 10 * 10 ^ zs.length := by ring
    simp only [List.length_cons, hpow]
    omega

theorem lexLtB_of_ofDec_lt :
    ∀ (a b : List Nat), a.length = b.length →
      (∀ d ∈ a, d < 10) → (∀ d ∈ b, d < 10) →
      ofDec a < ofDec b → lexLtB a b = true := by
  intro a
  induction a with
  | nil =>
    intro b hlen _ _ hv
    cases b with
    | nil => simp [ofDec] at hv
    | cons y bs => simp at hlen
  | cons x as ih =>
    intro b hlen ha hb hv
    cases b with
    | nil => simp at hlen
    | cons y bs =>
      simp only [List.length_cons, Nat.succ.injEq] at hlen
      rw [ofDec_cons, ofDec_cons, hlen] at hv
      have has : ∀ d ∈ as, d < 10 := fun d hd => ha d (by simp [hd])
      have hbs : ∀ d ∈ bs, d < 10 := fun d hd => hb d (by simp [hd])
      have hbound : ofDec as < 10 ^ as.length := ofDec_lt_pow as has
      rcases Nat.lt_trichotomy x y with hxy | hxy | hxy
      · simp [lexLtB, hxy]
      · subst hxy
        have hv' : ofDec as < ofDec bs := by omega
        have := ih bs hlen has hbs hv'
        simp [lexLtB, this]
      · exfalso
        have hbb : ofDec bs < 10 ^ bs.length := ofDec_lt_pow bs hbs
        rw [hlen] at hbound
        have hy1 : (y + 1) * 10 ^ bs.length ≤ x * 10 ^ bs.length :=
          Nat.mul_le_mul_right (10 ^ bs.length) (by omega)
        have hexp : (y + 1) * 10 ^ bs.length
            = y * 10 ^ bs.length + 10 ^ bs.length := by ring
        omega

/-- `pTag` is strictly monotone with respect to the shortlex byte order:
later counters give strictly larger (hence distinct) upstream tags. -/
theorem pTag_shortLex {m n : Nat} (h : m < n) :
    shortLexB (pTag m) (pTag n) = true := by
  set dm := padLeft 4 (toDecimal m) with hdm
  set dn := padLeft 4 (toDecimal n) with hdn
  have hvm : ofDec dm = m := by rw [hdm, ofDec_padLeft, ofDec_toDecimal]
  have hvn : ofDec dn = n := by rw [hdn, ofDec_padLeft, ofDec_toDecimal]
  have hlm : dm.length = max 4 (toDecimal m).length := by
    rw [hdm, padLeft_length]
  have hln : dn.length = max 4 (toDecimal n).length := by
    rw [hdn, padLeft_length]
  have hmono : (toDecimal m).length ≤ (toDecimal n).length :=
    toDecimal_length_mono (Nat.le_of_lt h)
  have hle : dm.length ≤ dn.length := by
    rw [hlm, hln]
    omega
  have hdigm : ∀ d ∈ dm, d < 10 := by
    intro d hd
    rw [hdm] at hd
    unfold padLeft at hd
    rcases List.mem_append.mp hd with h1 | h2
    · have := List.eq_of_mem_replicate h1
      omega
    · exact toDecimal_digits_lt m d h2
  have hdign : ∀ d ∈ dn, d < 10 := by
    intro d hd
    rw [hdn] at hd
    unfold padLeft at hd
    rcases List.mem_append.mp hd with h1 | h2
    · have := List.eq_of_mem_replicate h1
      omega
    · exact toDecimal_digits_lt n d h2
  rcases Nat.lt_or_ge dm.length dn.length with hlt | hge
  · have : (pTag m).length < (pTag n).length := by
      simp only [pTag, List.length_cons, List.length_map, ← hdm, ← hdn]
      omega
    simp [shortLexB, this]
  · have heq : dm.length = dn.length := Nat.le_antisymm hle hge
    have hvlt : ofDec dm < ofDec dn := by omega
    have hlex : lexLtB dm dn = true :=
      lexLtB_of_ofDec_lt dm dn heq hdigm hdign hvlt
    have hlex48 : ∀ (a b : List Nat), lexLtB a b = true →
        lexLtB (a.map (fun d => d + 48)) (b.map (fun d => d + 48)) = true := by
      intro a
      induction a with
      | nil =>
        intro b hab
        cases b with
        | nil => simp [lexLtB] at hab
        | cons y bs => simp [lexLtB]
      | cons x as ihm =>
        intro b hab
        cases b with
        | nil => simp [lexLtB] at hab
        | cons y bs =>
          simp only [lexLtB, Bool.or_eq_true, decide_eq_true_eq,
            Bool.and_eq_true, beq_iff_eq] at hab
          rcases hab with h1 | ⟨h1, h2⟩
          · simp only [List.map_cons, lexLtB, Bool.or_eq_true,
              decide_eq_true_eq]
            left
            omega
          · subst h1
            simp only [List.map_cons, lexLtB, Bool.or_eq_true,
              decide_eq_true_eq, Bool.and_eq_true, beq_iff_eq]
            right
            exact ⟨trivial, ihm bs h2⟩
    have hlen' : (pTag m).length = (pTag n).length := by
      simp only [pTag, List.length_cons, List.length_map, ← hdm, ← hdn, heq]
    have hlexp : lexLtB (pTag m) (pTag n) = true := by
      simp only [pTag, lexLtB, ← hdm, ← hdn]
      have := hlex48 dm dn hlex
      simp [this]
    simp [shortLexB, hlen', hlexp]

/-- Distinctness of tags: the byte strings for two counters coincide only
when the counters do. -/
theorem pTag_ne {m n : Nat} (h : m ≠ n) : pTag m ≠ pTag n :=
  fun hc => h (pTag_inj hc)

end TagOrder

section Pipeline

/-- Bytes of an ASCII Python string (used for the `command` name, which the
source encodes with `command.encode("ascii")`). -/
def strBytes (s : String) : Bytes := s.data.map Char.toNat

/-- `ForwardedCommand` from `forwarding.py`: the record of a command crossing
the proxy.  The wall-clock `timestamp` (`time.monotonic()`) only feeds debug
logging in the source, so it is modelled as the constant `0`. -/
structure ForwardedCommand where
  client_tag : Bytes
  upstream_tag : Bytes
  command : String
  args : Option Bytes
  timestamp : Nat := 0
deriving DecidableEq, Repr

/-- The mutable state of `ForwardingPipeline`: the two dict indices and the
tag counter. -/
structure ForwardingPipeline where
  in_flight : List (Bytes × ForwardedCommand)
  client_to_upstream : List (Bytes × Bytes)
  tag_counter : Nat
deriving DecidableEq, Repr

/-- `ForwardingPipeline.__init__`: an empty pipeline. -/
def emptyPipeline : ForwardingPipeline :=
  { in_flight := [], client_to_upstream := [], tag_counter := 0 }

/-- `ForwardingPipeline.generate_upstream_tag`: increment the counter and
return `f"P{counter:04d}".encode("ascii")` together with the new state. -/
def generate_upstream_tag (s : ForwardingPipeline) :
    Bytes × ForwardingPipeline :=
  (pTag (s.tag_counter + 1), { s with tag_counter := s.tag_counter + 1 })

/-- `ForwardingPipeline.forward_command`.  Returns the tracking record, the
new state and the single line written to the upstream socket, or the
`ValueError` message when the client tag is already in flight (in which case
the Python method raises before any mutation).  Note the Python truthiness
test `if args:`: an *empty* args byte string takes the no-args branch. -/
def forward_command (client_tag : Bytes) (command : String)
    (args : Option Bytes) (s : ForwardingPipeline) :
    Except String (ForwardedCommand × ForwardingPipeline × Bytes) :=
  if (alookup s.client_to_upstream client_tag).isSome then
    .error "Command with client tag already in flight"
  else
    let (upstream_tag, s1) := generate_upstream_tag s
    let cmd : ForwardedCommand :=
      { client_tag := client_tag, upstream_tag := upstream_tag,
        command := command, args := args }
    let s2 : ForwardingPipeline :=
      { s1 with
        in_flight := aset upstream_tag cmd s1.in_flight,
        client_to_upstream := aset client_tag upstream_tag
          s1.client_to_upstream }
    let line : Bytes :=
      match args with
      | some a =>
        if a ≠ [] then
          upstream_tag ++ spByte :: strBytes command ++ spByte :: a
        else
          upstream_tag ++ spByte :: strBytes command
      | none => upstream_tag ++ spByte :: strBytes command
    .ok (cmd, s2, line)

/-- Python `line.find(b" ")`: index of the first space byte, `none` where
Python returns `-1`. -/
def bfind0 (t : Nat) : List Nat → Option Nat
  | [] => none
  | b :: bs => if b = t then some 0 else (bfind0 t bs).map (fun i => i + 1)

/-- `ForwardingPipeline.route_response`.  Returns the new state, the list of
lines written to the client socket (always zero or one) and the Boolean the
method returns. -/
def route_response (line : Bytes) (s : ForwardingPipeline) :
    ForwardingPipeline × List Bytes × Bool :=
  if line = [] then (s, [], false)
  else if line.head? ≠ some starByte ∧ line.head? ≠ some plusByte then
    match bfind0 spByte line with
    | some space_idx =>
      if 0 < space_idx then
        let upstream_tag := line.take space_idx
        let rest := line.drop (space_idx + 1)
        match alookup s.in_flight upstream_tag with
        | some cmd =>
          ({ s with
              in_flight := aerase upstream_tag s.in_flight,
              client_to_upstream := aerase cmd.client_tag
                s.client_to_upstream },
            [cmd.client_tag ++ spByte :: rest], true)
        | none => (s, [line], false)
      else (s, [line], false)
    | none => (s, [line], false)
  else (s, [line], false)

/-- `ForwardingPipeline.get_forwarded_by_client_tag`. -/
def get_forwarded_by_client_tag (client_tag : Bytes)
    (s : ForwardingPipeline) : Option ForwardedCommand :=
  match alookup s.client_to_upstream client_tag with
  | some upstream_tag => alookup s.in_flight upstream_tag
  | none => none

/-- `ForwardingPipeline.get_forwarded_by_upstream_tag`. -/
def get_forwarded_by_upstream_tag (upstream_tag : Bytes)
    (s : ForwardingPipeline) : Option ForwardedCommand :=
  alookup s.in_flight upstream_tag

/-- `ForwardingPipeline.in_flight_count`. -/
def in_flight_count (s : ForwardingPipeline) : Nat := s.in_flight.length

/-- `ForwardingPipeline.clear_all`: clear both indices, return the number of
commands cleared.  The tag counter is *not* reset. -/
def clear_all (s : ForwardingPipeline) : ForwardingPipeline × Nat :=
  ({ s with in_flight := [], client_to_upstream := [] }, s.in_flight.length)

/-- `ForwardingPipeline.cancel_by_client_tag`: pop the client-tag binding
and, when present, the in-flight record. -/
def cancel_by_client_tag (client_tag : Bytes) (s : ForwardingPipeline) :
    ForwardingPipeline × Option ForwardedCommand :=
  match alookup s.client_to_upstream client_tag with
  | some upstream_tag =>
    let cmd := alookup s.in_flight upstream_tag
    ({ s with
        client_to_upstream := aerase client_tag s.client_to_upstream,
        in_flight := aerase upstream_tag s.in_flight }, cmd)
  | none => (s, none)

end Pipeline

section Invariants

/-- One call on the pipeline API, as used by the session supervisor. -/
inductive PipeOp where
  | fwd (client_tag : Bytes) (command : String) (args : Option Bytes)
  | route (line : Bytes)
  | cancel (client_tag : Bytes)
  | clear
deriving DecidableEq, Repr

/-- The state after one API call (a raised `ValueError` in `forward_command`
leaves the state unchanged, as the Python method mutates nothing before the
raise). -/
def applyOp (s : ForwardingPipeline) : PipeOp → ForwardingPipeline
  | .fwd ct c a =>
    match forward_command ct c a s with
    | .ok (_, s', _) => s'
    | .error _ => s
  | .route l => (route_response l s).1
  | .cancel ct => (cancel_by_client_tag ct s).1
  | .clear => (clear_all s).1

/-- The sequence of API calls applied in order. -/
def applyOps (s : ForwardingPipeline) (ops : List PipeOp) : ForwardingPipeline :=
  ops.foldl applyOp s

/-- Pipeline states reachable from the freshly constructed pipeline by any
sequence of API calls. -/
inductive Reachable : ForwardingPipeline → Prop where
  | init : Reachable emptyPipeline
  | step {s : ForwardingPipeline} (o : PipeOp) :
      Reachable s → Reachable (applyOp s o)

/-- Mutual consistency of the two tracker indices: `client_tag → upstream_tag`
holds in the client index exactly when the in-flight index holds a record at
that upstream tag whose `client_tag` field points back. -/
def Consistent (s : ForwardingPipeline) : Prop :=
  ∀ ct ut, alookup s.client_to_upstream ct = some ut ↔
    ∃ cmd, alookup s.in_flight ut = some cmd ∧ cmd.client_tag = ct

/-- Every key of the in-flight index was minted by the tag generator from a
counter value no greater than the current one (so the next generated tag is
fresh). -/
def TagsBounded (s : ForwardingPipeline) : Prop :=
  ∀ ut, (alookup s.in_flight ut).isSome →
    ∃ k, 0 < k ∧ k ≤ s.tag_counter ∧ ut = pTag k

theorem consistent_empty : Consistent emptyPipeline := by
  intro ct ut
  simp [emptyPipeline, alookup]

theorem tagsBounded_empty : TagsBounded emptyPipeline := by
  intro ut h
  simp [emptyPipeline, alookup] at h

theorem invariant_step (s : ForwardingPipeline)
    (hc : Consistent s) (hb : TagsBounded s) (o : PipeOp) :
    Consistent (applyOp s o) ∧ TagsBounded (applyOp s o) := by
  cases o with
  | fwd ct c a =>
    cases hcase : alookup s.client_to_upstream ct with
    | some v =>
      have happ : applyOp s (.fwd ct c a) = s := by
        simp [applyOp, forward_command, hcase]
      rw [happ]
      exact ⟨hc, hb⟩
    | none =>
      have hutfresh : alookup s.in_flight (pTag (s.tag_counter + 1)) = none := by
        cases hcase2 : alookup s.in_flight (pTag (s.tag_counter + 1)) with
        | none => rfl
        | some v =>
          have := hb (pTag (s.tag_counter + 1)) (by rw [hcase2]; simp)
          obtain ⟨k, hk0, hkle, hkeq⟩ := this
          have : k = s.tag_counter + 1 := pTag_inj hkeq.symm
          omega
      set ut := pTag (s.tag_counter + 1) with hut
      set cmd : ForwardedCommand :=
        { client_tag := ct, upstream_tag := ut, command := c, args := a }
        with hcmd
      have happ : applyOp s (.fwd ct c a) =
          { in_flight := aset ut cmd s.in_flight,
            client_to_upstream := aset ct ut s.client_to_upstream,
            tag_counter := s.tag_counter + 1 } := by
        simp [applyOp, forward_command, generate_upstream_tag, hcase, hut, hcmd]
      rw [happ]
      constructor
      · intro ct' ut'
        show alookup (aset ct ut s.client_to_upstream) ct' = some ut' ↔
          ∃ cmd', alookup (aset ut cmd s.in_flight) ut' = some cmd' ∧
            cmd'.client_tag = ct'
        by_cases hct : ct' = ct
        · subst hct
          rw [alookup_aset_self]
          constructor
          · intro h
            obtain rfl : ut = ut' := by simpa using h
            exact ⟨cmd, by rw [alookup_aset_self], rfl⟩
          · intro ⟨cmd', hcmd', hctag⟩
            by_cases hutu : ut' = ut
            · simp [hutu]
            · rw [alookup_aset_ne ut ut' cmd _ hutu] at hcmd'
              exfalso
              have : alookup s.client_to_upstream ct' = some ut' :=
                (hc ct' ut').mpr ⟨cmd', hcmd', hctag⟩
              rw [hcase] at this
              exact Option.noConfusion this
        · rw [alookup_aset_ne ct ct' ut _ hct]
          constructor
          · intro h
            by_cases hutu : ut' = ut
            · exfalso
              rw [hutu] at h
              obtain ⟨cmd', hcmd', hctag⟩ := (hc ct' ut).mp h
              rw [hutfresh] at hcmd'
              exact Option.noConfusion hcmd'
            · obtain ⟨cmd', hcmd', hctag⟩ := (hc ct' ut').mp h
              exact ⟨cmd', by
                rw [alookup_aset_ne ut ut' cmd _ hutu]; exact hcmd', hctag⟩
          · intro ⟨cmd', hcmd', hctag⟩
            by_cases hutu : ut' = ut
            · rw [hutu, alookup_aset_self] at hcmd'
              obtain rfl : cmd = cmd' := by simpa using hcmd'
              exact absurd hctag.symm hct
            · rw [alookup_aset_ne ut ut' cmd _ hutu] at hcmd'
              exact (hc ct' ut').mpr ⟨cmd', hcmd', hctag⟩
      · intro ut' h
        have h2 : (alookup (aset ut cmd s.in_flight) ut').isSome := h
        show ∃ k, 0 < k ∧ k ≤ s.tag_counter + 1 ∧ ut' = pTag k
        by_cases hutu : ut' = ut
        · exact ⟨s.tag_counter + 1, by omega, by omega, hutu⟩
        · rw [alookup_aset_ne _ _ _ _ hutu] at h2
          obtain ⟨k, hk0, hkle, hkeq⟩ := hb ut' h2
          exact ⟨k, hk0, by omega, hkeq⟩
  | route l =>
    by_cases h0 : l = []
    · have happ : applyOp s (.route l) = s := by
        simp [applyOp, route_response, h0]
      rw [happ]
      exact ⟨hc, hb⟩
    · by_cases h1 : l.head? ≠ some starByte ∧ l.head? ≠ some plusByte
      · cases hf : bfind0 spByte l with
        | none =>
          have happ : applyOp s (.route l) = s := by
            simp [applyOp, route_response, h0, h1, hf]
          rw [happ]
          exact ⟨hc, hb⟩
        | some si =>
          by_cases hsi : 0 < si
          · cases hcmd : alookup s.in_flight (l.take si) with
            | none =>
              have happ : applyOp s (.route l) = s := by
                simp [applyOp, route_response, h0, h1, hf, hsi, hcmd]
              rw [happ]
              exact ⟨hc, hb⟩
            | some cmd =>
              have happ : applyOp s (.route l) =
                  { s with
                    in_flight := aerase (l.take si) s.in_flight,
                    client_to_upstream := aerase cmd.client_tag
                      s.client_to_upstream } := by
                simp [applyOp, route_response, h0, h1, hf, hsi, hcmd]
              rw [happ]
              set ut := l.take si with hut
              refine ⟨?_, ?_⟩
              · intro ct' ut'
                show alookup (aerase cmd.client_tag s.client_to_upstream) ct'
                    = some ut' ↔
                  ∃ cmd', alookup (aerase ut s.in_flight) ut' = some cmd' ∧
                    cmd'.client_tag = ct'
                by_cases hctc : ct' = cmd.client_tag
                · subst hctc
                  rw [alookup_aerase_self]
                  constructor
                  · intro h
                    exact Option.noConfusion h
                  · intro ⟨cmd', hcmd', hctag⟩
                    by_cases hutu : ut' = ut
                    · rw [hutu, alookup_aerase_self] at hcmd'
                      exact Option.noConfusion hcmd'
                    · rw [alookup_aerase_ne ut ut' _ hutu] at hcmd'
                      have h2 : alookup s.client_to_upstream cmd.client_tag
                          = some ut' := (hc _ ut').mpr ⟨cmd', hcmd', hctag⟩
                      have h3 : alookup s.client_to_upstream cmd.client_tag
                          = some ut := (hc _ ut).mpr ⟨cmd, hcmd, rfl⟩
                      rw [h2] at h3
                      exact absurd (show ut' = ut by simpa using h3) hutu
                · rw [alookup_aerase_ne _ _ _ hctc]
                  constructor
                  · intro h
                    obtain ⟨cmd', hcmd', hctag⟩ := (hc ct' ut').mp h
                    by_cases hutu : ut' = ut
                    · rw [hutu, hcmd] at hcmd'
                      obtain rfl : cmd = cmd' := by simpa using hcmd'
                      exact absurd hctag.symm hctc
                    · exact ⟨cmd', by
                        rw [alookup_aerase_ne ut ut' _ hutu]; exact hcmd',
                        hctag⟩
                  · intro ⟨cmd', hcmd', hctag⟩
                    by_cases hutu : ut' = ut
                    · rw [hutu, alookup_aerase_self] at hcmd'
                      exact Option.noConfusion hcmd'
                    · rw [alookup_aerase_ne ut ut' _ hutu] at hcmd'
                      exact (hc ct' ut').mpr ⟨cmd', hcmd', hctag⟩
              · intro ut' h
                have h2 : (alookup (aerase ut s.in_flight) ut').isSome := h
                show ∃ k, 0 < k ∧ k ≤ s.tag_counter ∧ ut' = pTag k
                by_cases hutu : ut' = ut
                · rw [hutu, alookup_aerase_self] at h2
                  simp at h2
                · rw [alookup_aerase_ne ut ut' _ hutu] at h2
                  exact hb ut' h2
          · have happ : applyOp s (.route l) = s := by
              simp [applyOp, route_response, h0, h1, hf, hsi]
            rw [happ]
            exact ⟨hc, hb⟩
      · have happ : applyOp s (.route l) = s := by
          simp only [applyOp, route_response]
          rw [if_neg h0, if_neg h1]
        rw [happ]
        exact ⟨hc, hb⟩
  | cancel ct =>
    simp only [applyOp, cancel_by_client_tag]
    cases hl : alookup s.client_to_upstream ct with
    | none => exact ⟨hc, hb⟩
    | some ut =>
      refine ⟨?_, ?_⟩
      · intro ct' ut'
        by_cases hctc : ct' = ct
        · subst hctc
          rw [alookup_aerase_self]
          constructor
          · intro h
            exact Option.noConfusion h
          · intro ⟨cmd', hcmd', hctag⟩
            by_cases hutu : ut' = ut
            · rw [hutu, alookup_aerase_self] at hcmd'
              exact Option.noConfusion hcmd'
            · rw [alookup_aerase_ne ut ut' _ hutu] at hcmd'
              have h2 : alookup s.client_to_upstream ct' = some ut' :=
                (hc ct' ut').mpr ⟨cmd', hcmd', hctag⟩
              rw [hl] at h2
              exact absurd (show ut' = ut by simpa using h2.symm) hutu
        · rw [alookup_aerase_ne _ _ _ hctc]
          constructor
          · intro h
            obtain ⟨cmd', hcmd', hctag⟩ := (hc ct' ut').mp h
            by_cases hutu : ut' = ut
            · exfalso
              obtain ⟨cmd0, hcmd0, hctag0⟩ := (hc ct ut).mp hl
              rw [hutu, hcmd0] at hcmd'
              obtain rfl : cmd0 = cmd' := by simpa using hcmd'
              exact hctc (hctag.symm.trans hctag0)
            · exact ⟨cmd', by
                rw [alookup_aerase_ne ut ut' _ hutu]; exact hcmd', hctag⟩
          · intro ⟨cmd', hcmd', hctag⟩
            by_cases hutu : ut' = ut
            · rw [hutu, alookup_aerase_self] at hcmd'
              exact Option.noConfusion hcmd'
            · rw [alookup_aerase_ne ut ut' _ hutu] at hcmd'
              exact (hc ct' ut').mpr ⟨cmd', hcmd', hctag⟩
      · intro ut' h
        by_cases hutu : ut' = ut
        · rw [hutu, alookup_aerase_self] at h
          simp at h
        · rw [alookup_aerase_ne ut ut' _ hutu] at h
          exact hb ut' h
  | clear =>
    simp only [applyOp, clear_all]
    refine ⟨?_, ?_⟩
    · intro ct ut
      simp [alookup]
    · intro ut h
      simp [alookup] at h

theorem reachable_invariant {s : ForwardingPipeline} (h : Reachable s) :
    Consistent s ∧ TagsBounded s := by
  induction h with
  | init => exact ⟨consistent_empty, tagsBounded_empty⟩
  | step o _ ih => exact invariant_step _ ih.1 ih.2 o

end Invariants

section Server

/-- Python `bytes.decode("ascii", errors="replace")`: bytes below 128 decode
to themselves, anything else to U+FFFD. -/
def asciiDecode (bs : Bytes) : String :=
  String.mk (bs.map (fun b => if b < 128 then Char.ofNat b else '?'))

/-- `PendingCommand` from `server.py`; as for `ForwardedCommand`, the
wall-clock timestamp is modelled as `0` and the unused `upstream_tag` field
keeps its default `None`. -/
structure PendingCommand where
  client_tag : Bytes
  command : String
  args : Option Bytes
  timestamp : Nat := 0
  upstream_tag : Option Bytes := none
deriving DecidableEq, Repr

/-- The state of `CommandTagTracker`: the pending dict and its tag counter
(the counter feeds `CommandTagTracker.generate_upstream_tag`, which nothing
in the dispatch path calls). -/
structure CommandTagTracker where
  pending : List (Bytes × PendingCommand)
  tag_counter : Nat
deriving DecidableEq, Repr

/-- `CommandTagTracker.__init__`. -/
def emptyTracker : CommandTagTracker := { pending := [], tag_counter := 0 }

/-- `CommandTagTracker.register_command`: raises `ValueError` on a duplicate
tag, otherwise stores a fresh `PendingCommand`. -/
def register_command (tag : Bytes) (command : String) (args : Option Bytes)
    (t : CommandTagTracker) :
    Except String (PendingCommand × CommandTagTracker) :=
  if (alookup t.pending tag).isSome then
    .error "Duplicate command tag"
  else
    let cmd : PendingCommand :=
      { client_tag := tag, command := command, args := args }
    .ok (cmd, { t with pending := aset tag cmd t.pending })

/-- `CommandTagTracker.complete_command`: pop and return the record. -/
def complete_command (tag : Bytes) (t : CommandTagTracker) :
    Option PendingCommand × CommandTagTracker :=
  match alookup t.pending tag with
  | some cmd => (some cmd, { t with pending := aerase tag t.pending })
  | none => (none, t)

/-- `CommandTagTracker.has_pending`. -/
def has_pending (tag : Bytes) (t : CommandTagTracker) : Bool :=
  (alookup t.pending tag).isSome

/-- A policy gate decision, as in the spec's policy-decision data model
(`Allow | Deny(kind, message)` with `kind ∈ {NO, BAD}`; the `Rewrite`
outcome is accepted but never exercised by the source, so it is omitted). -/
inductive GateDecision where
  | allow
  | denyNO (reason : Bytes)
  | denyBAD (reason : Bytes)
deriving DecidableEq, Repr

/-- ASCII bytes of `" NO "` is `spByte :: noBytes ++ [spByte]`; keyword
bytes for the three response keywords. -/
def okBytes : Bytes := [79, 75]

/-- ASCII bytes of the `NO` keyword. -/
def noBytes : Bytes := [78, 79]

/-- ASCII bytes of the `BAD` keyword. -/
def badBytes : Bytes := [66, 65, 68]

/-- A synthesized tagged status response `<tag> <keyword> <message>`, the
wire format Twisted's `sendPositiveResponse` / `sendNegativeResponse` /
`sendBadResponse` produce (the spec's literal scenario bytes, e.g.
`A004 BAD Command tag already in use`). -/
def statusLine (tag keyword message : Bytes) : Bytes :=
  tag ++ spByte :: keyword ++ spByte :: message

/-- Modelled from the spec: the overridable `IMAPServerProtocol.check_command`
hook.  The version in the source is a stub that always returns `True`; the
policy gate that denies commands and synthesizes the error response (spec
section 4.4 step 3) is not part of the source, so it is modelled here,
parameterized by the policy decision function.  It returns the Python
method's Boolean together with the response lines sent to the client. -/
def check_command (gate : String → Option Bytes → GateDecision)
    (tag : Bytes) (cmd : String) (args : Option Bytes) :
    Bool × List Bytes :=
  match gate cmd args with
  | .allow => (true, [])
  | .denyNO reason => (false, [statusLine tag noBytes reason])
  | .denyBAD reason => (false, [statusLine tag badBytes reason])

/-- Result of `IMAPServerProtocol.dispatchCommand`: the tracker afterwards,
the lines synthesized to the client, and `forwarded = some (tag, cmd, rest)`
exactly when the command was handed on to `super().dispatchCommand` for
execution (only forwarded commands can ever produce upstream bytes). -/
structure DispatchResult where
  tracker : CommandTagTracker
  clientSent : List Bytes
  forwarded : Option (Bytes × String × Option Bytes)
deriving DecidableEq, Repr

/-- `IMAPServerProtocol.dispatchCommand` from `server.py`: run the gate; on
rejection return with nothing registered; otherwise register the tag, and on
a duplicate-tag `ValueError` send `BAD Command tag already in use` through
the overridden `sendBadResponse`, which *first* completes (removes) the
pending record for that tag. -/
def dispatchCommand (gate : String → Option Bytes → GateDecision)
    (tag : Bytes) (cmd : Bytes) (rest : Option Bytes)
    (t : CommandTagTracker) : DispatchResult :=
  let cmd_str := asciiDecode cmd
  let checked := check_command gate tag cmd_str rest
  if ¬ checked.1 then
    { tracker := t, clientSent := checked.2, forwarded := none }
  else
    match register_command tag cmd_str rest t with
    | .error _ =>
      let completed := complete_command tag t
      { tracker := completed.2,
        clientSent :=
          [statusLine tag badBytes
            (strBytes "Command tag already in use")],
        forwarded := none }
    | .ok (_, t') =>
      { tracker := t', clientSent := [], forwarded := some (tag, cmd_str, rest) }

/-- The always-allow policy: the behaviour of the source's default
`check_command`. -/
def allowAll : String → Option Bytes → GateDecision := fun _ _ => .allow

end Server

section Helpers

theorem bfind0_append_sp (T rest : Bytes) (h : ∀ b ∈ T, b ≠ spByte) :
    bfind0 spByte (T ++ spByte :: rest) = some T.length := by
  induction T with
  | nil => simp [bfind0]
  | cons a t ih =>
    have ha : a ≠ spByte := h a (by simp)
    have hne : ¬ a = spByte := ha
    have ih' := ih (fun b hb => h b (by simp [hb]))
    simp only [List.cons_append, bfind0, List.length_cons, List.append_eq]
    rw [if_neg hne, ih']
    rfl

theorem head?_append_of_ne_nil (T rest : Bytes) (h : T ≠ []) :
    (T ++ rest).head? = T.head? := by
  cases T with
  | nil => exact absurd rfl h
  | cons a t => simp

theorem pTag_head (n : Nat) : (pTag n).head? = some 80 := rfl

theorem pTag_ne_nil (n : Nat) : pTag n ≠ [] := by
  simp [pTag]

theorem pTag_no_space (n : Nat) : ∀ b ∈ pTag n, b ≠ spByte := by
  intro b hb
  simp only [pTag, List.mem_cons, List.mem_map] at hb
  rcases hb with h80 | ⟨d, hd, hplus⟩
  · simp [h80, spByte]
  · have : d + 48 = b := hplus
    simp only [spByte]
    omega

/-- General shape of `route_response` on a well-formed tagged line whose tag
contains no space: look up the tag and either rewrite-and-complete or pass
through. -/
theorem route_response_tagged (s : ForwardingPipeline) (T rest : Bytes)
    (hT : T ≠ []) (hstar : T.head? ≠ some starByte)
    (hplus : T.head? ≠ some plusByte)
    (hnospace : ∀ b ∈ T, b ≠ spByte) :
    route_response (T ++ spByte :: rest) s =
      match alookup s.in_flight T with
      | some cmd =>
        ({ s with
            in_flight := aerase T s.in_flight,
            client_to_upstream := aerase cmd.client_tag s.client_to_upstream },
          [cmd.client_tag ++ spByte :: rest], true)
      | none => (s, [T ++ spByte :: rest], false) := by
  have hne : T ++ spByte :: rest ≠ [] := by
    cases T <;> simp
  have hhead : (T ++ spByte :: rest).head? = T.head? :=
    head?_append_of_ne_nil T _ hT
  have hfind := bfind0_append_sp T rest hnospace
  have hlen : 0 < T.length := List.length_pos.mpr hT
  have htake : (T ++ spByte :: rest).take T.length = T := by
    exact List.take_left T (spByte :: rest)
  have hdrop : (T ++ spByte :: rest).drop (T.length + 1) = rest := by
    have h1 : T ++ spByte :: rest = (T ++ [spByte]) ++ rest := by simp
    have h2 : (T ++ [spByte]).length = T.length + 1 := by simp
    rw [h1, ← h2]
    exact List.drop_left (T ++ [spByte]) rest
  simp only [route_response]
  rw [if_neg hne]
  rw [if_pos (by rw [hhead]; exact ⟨hstar, hplus⟩)]
  rw [hfind]
  simp only
  rw [if_pos hlen, htake, hdrop]

/-- Characterization of a successful `forward_command`: the client tag was
free, the returned record carries the freshly minted tag, and the new state
binds it in both indices with the counter advanced. -/
theorem forward_command_ok {ct : Bytes} {c : String} {a : Option Bytes}
    {s : ForwardingPipeline} {cmd : ForwardedCommand}
    {s1 : ForwardingPipeline} {l : Bytes}
    (h : forward_command ct c a s = .ok (cmd, s1, l)) :
    alookup s.client_to_upstream ct = none ∧
    cmd = { client_tag := ct, upstream_tag := pTag (s.tag_counter + 1),
            command := c, args := a } ∧
    s1 = { in_flight := aset (pTag (s.tag_counter + 1)) cmd s.in_flight,
           client_to_upstream := aset ct (pTag (s.tag_counter + 1))
             s.client_to_upstream,
           tag_counter := s.tag_counter + 1 } := by
  by_cases hdup : (alookup s.client_to_upstream ct).isSome
  · simp [forward_command, hdup] at h
  · have hfree : alookup s.client_to_upstream ct = none :=
      Option.not_isSome_iff_eq_none.mp hdup
    refine ⟨hfree, ?_⟩
    simp only [forward_command, hdup, Bool.false_eq_true, if_false,
      generate_upstream_tag, Except.ok.injEq, Prod.mk.injEq] at h
    obtain ⟨hcmd, hs1, -⟩ := h
    subst hcmd
    exact ⟨rfl, hs1.symm⟩

/-- The line a successful `forward_command` writes to the upstream socket,
split by the shape of `args` (note the Python truthiness test `if args:`). -/
theorem forward_command_line {ct : Bytes} {c : String} {a : Option Bytes}
    {s : ForwardingPipeline} {cmd : ForwardedCommand}
    {s1 : ForwardingPipeline} {l : Bytes}
    (h : forward_command ct c a s = .ok (cmd, s1, l)) :
    (a = none → l = pTag (s.tag_counter + 1) ++ spByte :: strBytes c) ∧
    (∀ aa, a = some aa → aa ≠ [] →
      l = pTag (s.tag_counter + 1) ++ spByte :: strBytes c ++ spByte :: aa) := by
  by_cases hdup : (alookup s.client_to_upstream ct).isSome
  · simp [forward_command, hdup] at h
  · simp only [forward_command, hdup, Bool.false_eq_true, if_false,
      generate_upstream_tag, Except.ok.injEq, Prod.mk.injEq] at h
    obtain ⟨-, -, hl⟩ := h
    constructor
    · intro ha
      subst ha
      exact hl.symm
    · intro aa ha hne
      subst ha
      rw [← hl]
      simp [hne]

theorem route_response_counter (l : Bytes) (s : ForwardingPipeline) :
    ((route_response l s).1).tag_counter = s.tag_counter := by
  unfold route_response
  split
  · rfl
  · split
    · split
      · split
        · dsimp only
          split <;> rfl
        · rfl
      · rfl
    · rfl

theorem cancel_counter (ct : Bytes) (s : ForwardingPipeline) :
    ((cancel_by_client_tag ct s).1).tag_counter = s.tag_counter := by
  unfold cancel_by_client_tag
  split <;> rfl

theorem applyOp_counter_le (s : ForwardingPipeline) (o : PipeOp) :
    s.tag_counter ≤ (applyOp s o).tag_counter := by
  cases o with
  | fwd ct c a =>
    simp only [applyOp]
    cases hf : forward_command ct c a s with
    | error e => exact Nat.le_refl _
    | ok r =>
      obtain ⟨cmd, s1, l⟩ := r
      have := (forward_command_ok hf).2.2
      rw [this]
      exact Nat.le_succ _
  | route l => rw [applyOp, route_response_counter]
  | cancel ct => rw [applyOp, cancel_counter]
  | clear => exact Nat.le_refl _

theorem applyOps_counter_le (s : ForwardingPipeline) (ops : List PipeOp) :
    s.tag_counter ≤ (applyOps s ops).tag_counter := by
  induction ops generalizing s with
  | nil => exact Nat.le_refl _
  | cons o t ih =>
    calc s.tag_counter ≤ (applyOp s o).tag_counter := applyOp_counter_le s o
      _ ≤ (applyOps (applyOp s o) t).tag_counter := ih _
      _ = (applyOps s (o :: t)).tag_counter := rfl

end Helpers

section MoreHelpers

theorem pTag_head_ne_star (n : Nat) : (pTag n).head? ≠ some starByte := by
  rw [pTag_head]
  simp [starByte]

theorem pTag_head_ne_plus (n : Nat) : (pTag n).head? ≠ some plusByte := by
  rw [pTag_head]
  simp [plusByte]

end MoreHelpers

/-- Claim C1: for every tagged upstream response line whose tag `T` is bound
in the tracker, `route_response` sends the client exactly one line — the
original line with `T` replaced by the bound `client_tag` and the payload
bytes after the first SP unchanged — removes the record for `T` from both
tracker indices, and returns `True`. -/
theorem route_rewrites_bound_tag (s : ForwardingPipeline)
    (T rest : Bytes) (cmd : ForwardedCommand)
    (hT : T ≠ []) (hstar : T.head? ≠ some starByte)
    (hplus : T.head? ≠ some plusByte) (hnospace : ∀ b ∈ T, b ≠ spByte)
    (hbound : alookup s.in_flight T = some cmd) :
    (route_response (T ++ spByte :: rest) s).2.1
        = [cmd.client_tag ++ spByte :: rest] ∧
    (route_response (T ++ spByte :: rest) s).2.2 = true ∧
    (route_response (T ++ spByte :: rest) s).1.in_flight
        = aerase T s.in_flight ∧
    (route_response (T ++ spByte :: rest) s).1.client_to_upstream
        = aerase cmd.client_tag s.client_to_upstream ∧
    alookup (route_response (T ++ spByte :: rest) s).1.in_flight T = none ∧
    alookup (route_response (T ++ spByte :: rest) s).1.client_to_upstream
        cmd.client_tag = none := by
  have hr := route_response_tagged s T rest hT hstar hplus hnospace
  rw [hbound] at hr
  rw [hr]
  exact ⟨rfl, rfl, rfl, rfl, alookup_aerase_self T s.in_flight,
    alookup_aerase_self cmd.client_tag s.client_to_upstream⟩

/-- Witness for C1 at a concrete one-command pipeline state. -/
theorem route_rewrites_bound_tag_witness :
    (route_response ([80, 48, 48, 48, 49] ++ spByte :: [79, 75])
        { in_flight := [([80, 48, 48, 48, 49],
            { client_tag := [65], upstream_tag := [80, 48, 48, 48, 49],
              command := "X", args := none })],
          client_to_upstream := [([65], [80, 48, 48, 48, 49])],
          tag_counter := 1 }).2.1
      = [[65] ++ spByte :: [79, 75]] :=
  (route_rewrites_bound_tag
    { in_flight := [([80, 48, 48, 48, 49],
        { client_tag := [65], upstream_tag := [80, 48, 48, 48, 49],
          command := "X", args := none })],
      client_to_upstream := [([65], [80, 48, 48, 48, 49])],
      tag_counter := 1 }
    [80, 48, 48, 48, 49] [79, 75]
    { client_tag := [65], upstream_tag := [80, 48, 48, 48, 49],
      command := "X", args := none }
    (by decide) (by decide) (by decide) (by decide) (by decide)).1

/-- Claim C9: every upstream line whose first byte is an asterisk (untagged)
or a plus (continuation) is passed to the client verbatim, never consumed
(state unchanged, return `False`); and every tagged line whose tag is not
found in the tracker is likewise passed through verbatim. -/
theorem untagged_unknown_passthrough (s : ForwardingPipeline) (line : Bytes) :
    (line.head? = some starByte ∨ line.head? = some plusByte →
      route_response line s = (s, [line], false)) ∧
    (∀ T rest, line = T ++ spByte :: rest → T ≠ [] →
      T.head? ≠ some starByte → T.head? ≠ some plusByte →
      (∀ b ∈ T, b ≠ spByte) → alookup s.in_flight T = none →
      route_response line s = (s, [line], false)) := by
  constructor
  · intro h
    have hne : line ≠ [] := by
      cases line with
      | nil => simp at h
      | cons a t => simp
    have hcond : ¬ (line.head? ≠ some starByte ∧ line.head? ≠ some plusByte) := by
      rcases h with h | h <;> simp [h]
    simp only [route_response]
    rw [if_neg hne, if_neg hcond]
  · intro T rest hline hT hstar hplus hnosp hnone
    subst hline
    rw [route_response_tagged s T rest hT hstar hplus hnosp, hnone]

/-- Witness for C9: an untagged line and an unknown tag on the empty
pipeline. -/
theorem untagged_unknown_passthrough_witness :
    route_response [42, 32, 53] emptyPipeline
      = (emptyPipeline, [[42, 32, 53]], false) ∧
    route_response ([85] ++ spByte :: [79, 75]) emptyPipeline
      = (emptyPipeline, [[85] ++ spByte :: [79, 75]], false) :=
  ⟨(untagged_unknown_passthrough emptyPipeline [42, 32, 53]).1
      (Or.inl (by decide)),
    (untagged_unknown_passthrough emptyPipeline
        ([85] ++ spByte :: [79, 75])).2 [85] [79, 75] rfl
      (by decide) (by decide) (by decide) (by decide) rfl⟩

/-- Claim C10: `route_response` is a total function of the input byte string
(the Lean embedding is a total `def`): an empty line sends nothing, returns
`False` and leaves the tracker unchanged, and a tagged line with no SP after
the tag (Python `find` returns `-1`) or beginning with SP (`find` returns
`0`) is forwarded to the client unmodified with the tracker unchanged. -/
theorem route_total_edges (s : ForwardingPipeline) (line : Bytes) :
    route_response [] s = (s, [], false) ∧
    (line ≠ [] → line.head? ≠ some starByte → line.head? ≠ some plusByte →
      (bfind0 spByte line = none ∨ bfind0 spByte line = some 0) →
      route_response line s = (s, [line], false)) := by
  constructor
  · simp [route_response]
  · intro hne hstar hplus hf
    simp only [route_response]
    rw [if_neg hne, if_pos ⟨hstar, hplus⟩]
    rcases hf with h | h
    · rw [h]
    · rw [h]
      simp

/-- Witness for C10: the empty line and a space-free tagged line. -/
theorem route_total_edges_witness :
    route_response [] emptyPipeline = (emptyPipeline, [], false) ∧
    route_response [65] emptyPipeline = (emptyPipeline, [[65]], false) :=
  ⟨(route_total_edges emptyPipeline [65]).1,
    (route_total_edges emptyPipeline [65]).2 (by decide) (by decide)
      (by decide) (Or.inl (by decide))⟩

/-- The verbatim remainder of the client command line after its first SP:
`<name>[ SP <args>]`, exactly as the parser hands `(name, rest)` to the
dispatcher. -/
def clientRest (name : String) (args : Option Bytes) : Bytes :=
  strBytes name ++ (match args with | none => [] | some a => spByte :: a)

/-- Claim C2: for a command the policy allows without rewrite (the gate runs
before `forward_command`, which receives the parsed name and args), the
bytes sent upstream are the freshly allocated upstream tag, one SP, and the
verbatim remainder of the client line after the first SP.  The hypothesis
excludes `args = some []`: the IMAP grammar yields either no args or a
nonempty args slice, and Python's truthiness test `if args:` would drop the
trailing SP for an empty args byte string. -/
theorem forward_preserves_client_bytes (s : ForwardingPipeline) (ct : Bytes)
    (name : String) (args : Option Bytes)
    (hfree : alookup s.client_to_upstream ct = none)
    (hargs : args = none ∨ ∃ a, args = some a ∧ a ≠ []) :
    ∃ cmd s1, forward_command ct name args s
        = .ok (cmd, s1, cmd.upstream_tag ++ spByte :: clientRest name args)
      ∧ cmd.upstream_tag = pTag (s.tag_counter + 1) := by
  have hdup : ¬ (alookup s.client_to_upstream ct).isSome = true := by
    simp [hfree]
  cases hok : forward_command ct name args s with
  | error e => simp [forward_command, hdup] at hok
  | ok r =>
    obtain ⟨cmd, s1, l⟩ := r
    obtain ⟨-, hcmd, -⟩ := forward_command_ok hok
    have hline := forward_command_line hok
    have hut : cmd.upstream_tag = pTag (s.tag_counter + 1) := by rw [hcmd]
    refine ⟨cmd, s1, ?_, hut⟩
    rcases hargs with ha | ⟨a, ha, hane⟩
    · subst ha
      rw [hline.1 rfl, hut]
      simp [clientRest]
    · subst ha
      rw [hline.2 a rfl hane, hut]
      simp [clientRest]

/-- Witness for C2: forwarding a one-argument command on the empty
pipeline. -/
theorem forward_preserves_client_bytes_witness :
    ∃ cmd s1, forward_command [65] "S" (some [66]) emptyPipeline
        = .ok (cmd, s1, cmd.upstream_tag ++ spByte :: clientRest "S" (some [66]))
      ∧ cmd.upstream_tag = pTag (emptyPipeline.tag_counter + 1) :=
  forward_preserves_client_bytes emptyPipeline [65] "S" (some [66]) rfl
    (Or.inr ⟨[66], rfl, by decide⟩)

/-- Claim C5: within one pipeline, the upstream tags allocated by two
successful `forward_command` calls — the second after any sequence of
further API calls, `clear_all` included (which clears the dicts but not the
tag counter) — are strictly increasing in the shortlex byte order and never
equal. -/
theorem upstream_tags_increase (s0 : ForwardingPipeline) (mid : List PipeOp)
    (ct1 ct2 : Bytes) (n1 n2 : String) (a1 a2 : Option Bytes)
    (cmd1 cmd2 : ForwardedCommand) (s1 s2 : ForwardingPipeline)
    (l1 l2 : Bytes)
    (h1 : forward_command ct1 n1 a1 s0 = .ok (cmd1, s1, l1))
    (h2 : forward_command ct2 n2 a2 (applyOps s1 mid) = .ok (cmd2, s2, l2)) :
    shortLexB cmd1.upstream_tag cmd2.upstream_tag = true ∧
    cmd1.upstream_tag ≠ cmd2.upstream_tag := by
  obtain ⟨-, hc1, hs1⟩ := forward_command_ok h1
  obtain ⟨-, hc2, -⟩ := forward_command_ok h2
  have hcnt : s1.tag_counter = s0.tag_counter + 1 := by rw [hs1]
  have hmid : s1.tag_counter ≤ (applyOps s1 mid).tag_counter :=
    applyOps_counter_le s1 mid
  have hlt : s0.tag_counter + 1 < (applyOps s1 mid).tag_counter + 1 := by
    omega
  rw [hc1, hc2]
  exact ⟨pTag_shortLex hlt, pTag_ne (by omega)⟩

/-- Witness for C5: two forwards separated by a `clear_all`; the counter is
not reset, so the tags are `P0001` and then `P0002`. -/
theorem upstream_tags_increase_witness :
    shortLexB ([80, 48, 48, 48, 49] : Bytes) [80, 48, 48, 48, 50] = true ∧
    ([80, 48, 48, 48, 49] : Bytes) ≠ [80, 48, 48, 48, 50] :=
  upstream_tags_increase emptyPipeline [PipeOp.clear] [65] [65] "" "" none
    none
    { client_tag := [65], upstream_tag := [80, 48, 48, 48, 49],
      command := "", args := none }
    { client_tag := [65], upstream_tag := [80, 48, 48, 48, 50],
      command := "", args := none }
    { in_flight := [([80, 48, 48, 48, 49],
        { client_tag := [65], upstream_tag := [80, 48, 48, 48, 49],
          command := "", args := none })],
      client_to_upstream := [([65], [80, 48, 48, 48, 49])],
      tag_counter := 1 }
    { in_flight := [([80, 48, 48, 48, 50],
        { client_tag := [65], upstream_tag := [80, 48, 48, 48, 50],
          command := "", args := none })],
      client_to_upstream := [([65], [80, 48, 48, 48, 50])],
      tag_counter := 2 }
    [80, 48, 48, 48, 49, 32] [80, 48, 48, 48, 50, 32]
    (by rfl) (by rfl)

/-- Claim C7: a fresh binding of `ct` to `ut` made by `forward_command`,
followed by either a tagged completion routed through `route_response` or a
`cancel_by_client_tag`, leaves the tracker with no record reachable by `ct`
or by `ut`. -/
theorem bind_then_complete_or_cancel_empty (s : ForwardingPipeline)
    (ct : Bytes) (c : String) (a : Option Bytes) (rest : Bytes)
    (cmd : ForwardedCommand) (s1 : ForwardingPipeline) (l : Bytes)
    (h : forward_command ct c a s = .ok (cmd, s1, l)) :
    get_forwarded_by_client_tag ct
        (route_response (cmd.upstream_tag ++ spByte :: rest) s1).1 = none ∧
    get_forwarded_by_upstream_tag cmd.upstream_tag
        (route_response (cmd.upstream_tag ++ spByte :: rest) s1).1 = none ∧
    (route_response (cmd.upstream_tag ++ spByte :: rest) s1).2.2 = true ∧
    get_forwarded_by_client_tag ct (cancel_by_client_tag ct s1).1 = none ∧
    get_forwarded_by_upstream_tag cmd.upstream_tag
        (cancel_by_client_tag ct s1).1 = none := by
  obtain ⟨hfree, rfl, rfl⟩ := forward_command_ok h
  dsimp only
  set pt := pTag (s.tag_counter + 1) with hpt
  set lit : ForwardedCommand :=
    { client_tag := ct, upstream_tag := pt, command := c, args := a }
    with hlit
  have hroute := route_response_tagged
    { in_flight := aset pt lit s.in_flight,
      client_to_upstream := aset ct pt s.client_to_upstream,
      tag_counter := s.tag_counter + 1 }
    pt rest (pTag_ne_nil _) (pTag_head_ne_star _) (pTag_head_ne_plus _)
    (pTag_no_space _)
  rw [show alookup (aset pt lit s.in_flight) pt = some lit from
    alookup_aset_self pt lit s.in_flight] at hroute
  rw [hroute]
  have hcancel : (cancel_by_client_tag ct
      { in_flight := aset pt lit s.in_flight,
        client_to_upstream := aset ct pt s.client_to_upstream,
        tag_counter := s.tag_counter + 1 }).1 =
      { in_flight := aerase pt (aset pt lit s.in_flight),
        client_to_upstream := aerase ct (aset ct pt s.client_to_upstream),
        tag_counter := s.tag_counter + 1 } := by
    simp [cancel_by_client_tag, alookup_aset_self]
  rw [hcancel]
  refine ⟨?_, ?_, rfl, ?_, ?_⟩
  · simp [get_forwarded_by_client_tag, alookup_aerase_self]
  · simp [get_forwarded_by_upstream_tag, alookup_aerase_self]
  · simp [get_forwarded_by_client_tag, alookup_aerase_self]
  · simp [get_forwarded_by_upstream_tag, alookup_aerase_self]

/-- Witness for C7 at the empty pipeline. -/
theorem bind_then_complete_or_cancel_empty_witness :
    get_forwarded_by_client_tag [65]
        (route_response
          (({ client_tag := [65], upstream_tag := [80, 48, 48, 48, 49],
              command := "", args := none } :
                ForwardedCommand).upstream_tag ++ spByte :: [79, 75])
          { in_flight := [([80, 48, 48, 48, 49],
              { client_tag := [65], upstream_tag := [80, 48, 48, 48, 49],
                command := "", args := none })],
            client_to_upstream := [([65], [80, 48, 48, 48, 49])],
            tag_counter := 1 }).1 = none :=
  (bind_then_complete_or_cancel_empty emptyPipeline [65] "" none [79, 75]
    { client_tag := [65], upstream_tag := [80, 48, 48, 48, 49],
      command := "", args := none }
    { in_flight := [([80, 48, 48, 48, 49],
        { client_tag := [65], upstream_tag := [80, 48, 48, 48, 49],
          command := "", args := none })],
      client_to_upstream := [([65], [80, 48, 48, 48, 49])],
      tag_counter := 1 }
    [80, 48, 48, 48, 49, 32] (by rfl)).1

/-- Claim C4: at every state reachable by any sequence of `forward_command`,
`route_response`, `cancel_by_client_tag` and `clear_all` calls, the two
tracker indices are mutually consistent: `ct` maps to `ut` in the client
index exactly when the in-flight index holds at `ut` a record whose
`client_tag` is `ct`; hence every in-flight client tag maps to exactly one
upstream tag and vice versa. -/
theorem tracker_indices_consistent {s : ForwardingPipeline}
    (h : Reachable s) : Consistent s :=
  (reachable_invariant h).1

/-- Witness for C4: the state after one forwarded command is reachable and
consistent. -/
theorem tracker_indices_consistent_witness :
    Consistent (applyOp emptyPipeline (PipeOp.fwd [65] "" none)) :=
  tracker_indices_consistent
    (Reachable.step (PipeOp.fwd [65] "" none) Reachable.init)

/-- Claim C3: for every client command the policy gate denies, the dispatcher
synthesizes the tagged `NO <reason>` (or `BAD <reason>` for syntactic
denials) response on the client socket, hands nothing on for execution (so
zero bytes reach the upstream socket for that command), and leaves the tag
tracker untouched. -/
theorem deny_no_upstream_no_tracker
    (gate : String → Option Bytes → GateDecision) (tag cmdB : Bytes)
    (rest : Option Bytes) (t : CommandTagTracker) :
    (∀ reason, gate (asciiDecode cmdB) rest = .denyNO reason →
      dispatchCommand gate tag cmdB rest t =
        { tracker := t, clientSent := [statusLine tag noBytes reason],
          forwarded := none }) ∧
    (∀ reason, gate (asciiDecode cmdB) rest = .denyBAD reason →
      dispatchCommand gate tag cmdB rest t =
        { tracker := t, clientSent := [statusLine tag badBytes reason],
          forwarded := none }) := by
  constructor <;> intro reason hg <;>
    simp [dispatchCommand, check_command, hg]

/-- Witness for C3: a gate that denies with `NO Access denied`. -/
theorem deny_no_upstream_no_tracker_witness :
    dispatchCommand (fun _ _ => GateDecision.denyNO (strBytes "Access denied"))
        [65, 48, 48, 51] [83] none emptyTracker
      = { tracker := emptyTracker,
          clientSent := [statusLine [65, 48, 48, 51] noBytes
            (strBytes "Access denied")],
          forwarded := none } :=
  (deny_no_upstream_no_tracker
    (fun _ _ => GateDecision.denyNO (strBytes "Access denied"))
    [65, 48, 48, 51] [83] none emptyTracker).1 (strBytes "Access denied") rfl

/-- Counterexample to claim C6 as stated: submit `A004` twice, the second
while the first is in flight.  The client does receive
`A004 BAD Command tag already in use`, but the first command does *not*
remain tracked: the overridden `sendBadResponse` first calls
`complete_command(tag)`, which pops the first command's pending record. -/
theorem duplicate_tag_first_untracked_cex :
    (dispatchCommand allowAll [65, 48, 48, 52] [67] none
        (dispatchCommand allowAll [65, 48, 48, 52] [78] none
          emptyTracker).tracker).clientSent
      = [statusLine [65, 48, 48, 52] badBytes
          (strBytes "Command tag already in use")] ∧
    has_pending [65, 48, 48, 52]
      (dispatchCommand allowAll [65, 48, 48, 52] [67] none
        (dispatchCommand allowAll [65, 48, 48, 52] [78] none
          emptyTracker).tracker).tracker = false := by
  constructor
  · rfl
  · rfl

/-- Claim C6, amended: submitting a command whose tag is in flight fails
with the duplicate-tag error and the client receives
`BAD Command tag already in use`; the synthesized `BAD` also completes tag
tracking, removing the first command's pending record (the first command's
own wire response is still delivered when it arrives, but it is no longer
tracked); reusing a client tag after the prior command completed or was
cancelled succeeds. -/
theorem duplicate_tag_rejected_and_untracked
    (gate : String → Option Bytes → GateDecision) (tag cmdB : Bytes)
    (rest : Option Bytes) (t : CommandTagTracker)
    (hallow : gate (asciiDecode cmdB) rest = GateDecision.allow)
    (hdup : has_pending tag t = true) :
    dispatchCommand gate tag cmdB rest t =
      { tracker := (complete_command tag t).2,
        clientSent := [statusLine tag badBytes
          (strBytes "Command tag already in use")],
        forwarded := none } ∧
    has_pending tag (complete_command tag t).2 = false ∧
    (∀ cmdB2 rest2, gate (asciiDecode cmdB2) rest2 = GateDecision.allow →
      (dispatchCommand gate tag cmdB2 rest2
          (complete_command tag t).2).forwarded
        = some (tag, asciiDecode cmdB2, rest2)) ∧
    (∀ (p : ForwardingPipeline) (c : String) (a : Option Bytes),
      ∃ cmd s1 l, forward_command tag c a (cancel_by_client_tag tag p).1
        = Except.ok (cmd, s1, l)) := by
  have hdup' : (alookup t.pending tag).isSome = true := hdup
  obtain ⟨pc, hpc⟩ := Option.isSome_iff_exists.mp hdup'
  have hcomp : complete_command tag t
      = (some pc, { t with pending := aerase tag t.pending }) := by
    simp [complete_command, hpc]
  have hpend : has_pending tag (complete_command tag t).2 = false := by
    rw [hcomp]
    simp [has_pending, alookup_aerase_self]
  refine ⟨?_, hpend, ?_, ?_⟩
  · simp [dispatchCommand, check_command, hallow, register_command, hdup']
  · intro cmdB2 rest2 hallow2
    have hfree : (alookup (complete_command tag t).2.pending tag).isSome
        = false := by
      have := hpend
      simpa [has_pending] using this
    simp [dispatchCommand, check_command, hallow2, register_command, hfree]
  · intro p c a
    have hnone : alookup ((cancel_by_client_tag tag p).1).client_to_upstream
        tag = none := by
      unfold cancel_by_client_tag
      cases hcl : alookup p.client_to_upstream tag with
      | some ut =>
        dsimp only
        exact alookup_aerase_self tag p.client_to_upstream
      | none =>
        dsimp only
        exact hcl
    cases hres : forward_command tag c a (cancel_by_client_tag tag p).1 with
    | error e =>
      simp [forward_command, hnone] at hres
    | ok r =>
      obtain ⟨cmd, s1, l⟩ := r
      exact ⟨cmd, s1, l, rfl⟩

/-- Witness for C6 (amended) at a concrete tracker holding `A004`. -/
theorem duplicate_tag_rejected_and_untracked_witness :
    has_pending [65, 48, 48, 52]
      (complete_command [65, 48, 48, 52]
        (dispatchCommand allowAll [65, 48, 48, 52] [78] none
          emptyTracker).tracker).2 = false :=
  (duplicate_tag_rejected_and_untracked allowAll [65, 48, 48, 52] [67] none
    (dispatchCommand allowAll [65, 48, 48, 52] [78] none emptyTracker).tracker
    rfl (by rfl)).2.1

/-- Counterexample to claim C8 as stated: forward `A006`, cancel it, then
route the tagged upstream response bearing its upstream tag `P0001`.  The
claim says nothing is forwarded to the client; in fact `route_response`
takes the defensive unknown-tag path and passes the line through verbatim. -/
theorem cancelled_response_forwarded_cex :
    (route_response [80, 48, 48, 48, 49, 32, 79, 75]
        (applyOps emptyPipeline
          [PipeOp.fwd [65, 48, 48, 54] "" none,
            PipeOp.cancel [65, 48, 48, 54]])).2.1
      = [[80, 48, 48, 48, 49, 32, 79, 75]] ∧
    (route_response [80, 48, 48, 48, 49, 32, 79, 75]
        (applyOps emptyPipeline
          [PipeOp.fwd [65, 48, 48, 54] "" none,
            PipeOp.cancel [65, 48, 48, 54]])).2.1 ≠ [] := by
  constructor
  · rfl
  · decide

/-- Claim C8, amended: a tagged response for a command that was cancelled is
not rewritten, not tracked and does not complete anything — `route_response`
finds no record for the retired upstream tag and passes the line through to
the client verbatim (the defensive unknown-tag pass-through), returning
`False` with the state unchanged. -/
theorem cancelled_response_passthrough (s : ForwardingPipeline)
    (ct : Bytes) (c : String) (a : Option Bytes) (rest : Bytes)
    (cmd : ForwardedCommand) (s1 : ForwardingPipeline) (l : Bytes)
    (h : forward_command ct c a s = .ok (cmd, s1, l)) :
    route_response (cmd.upstream_tag ++ spByte :: rest)
        (cancel_by_client_tag ct s1).1
      = ((cancel_by_client_tag ct s1).1,
          [cmd.upstream_tag ++ spByte :: rest], false) := by
  obtain ⟨hfree, rfl, rfl⟩ := forward_command_ok h
  dsimp only
  set pt := pTag (s.tag_counter + 1) with hpt
  set lit : ForwardedCommand :=
    { client_tag := ct, upstream_tag := pt, command := c, args := a }
    with hlit
  have hcancel : (cancel_by_client_tag ct
      { in_flight := aset pt lit s.in_flight,
        client_to_upstream := aset ct pt s.client_to_upstream,
        tag_counter := s.tag_counter + 1 }).1 =
      { in_flight := aerase pt (aset pt lit s.in_flight),
        client_to_upstream := aerase ct (aset ct pt s.client_to_upstream),
        tag_counter := s.tag_counter + 1 } := by
    simp [cancel_by_client_tag, alookup_aset_self]
  rw [hcancel]
  rw [route_response_tagged _ pt rest (pTag_ne_nil _) (pTag_head_ne_star _)
    (pTag_head_ne_plus _) (pTag_no_space _)]
  rw [show alookup (aerase pt (aset pt lit s.in_flight)) pt = none from
    alookup_aerase_self pt (aset pt lit s.in_flight)]

/-- Witness for C8 (amended) at the empty pipeline. -/
theorem cancelled_response_passthrough_witness :
    route_response
        (({ client_tag := [65], upstream_tag := [80, 48, 48, 48, 49],
            command := "", args := none } :
              ForwardedCommand).upstream_tag ++ spByte :: [79, 75])
        (cancel_by_client_tag [65]
          { in_flight := [([80, 48, 48, 48, 49],
              { client_tag := [65], upstream_tag := [80, 48, 48, 48, 49],
                command := "", args := none })],
            client_to_upstream := [([65], [80, 48, 48, 48, 49])],
            tag_counter := 1 }).1
      = ((cancel_by_client_tag [65]
            { in_flight := [([80, 48, 48, 48, 49],
                { client_tag := [65], upstream_tag := [80, 48, 48, 48, 49],
                  command := "", args := none })],
              client_to_upstream := [([65], [80, 48, 48, 48, 49])],
              tag_counter := 1 }).1,
          [({ client_tag := [65], upstream_tag := [80, 48, 48, 48, 49],
              command := "", args := none } :
                ForwardedCommand).upstream_tag ++ spByte :: [79, 75]],
          false) :=
  cancelled_response_passthrough emptyPipeline [65] "" none [79, 75]
    { client_tag := [65], upstream_tag := [80, 48, 48, 48, 49],
      command := "", args := none }
    { in_flight := [([80, 48, 48, 48, 49],
        { client_tag := [65], upstream_tag := [80, 48, 48, 48, 49],
          command := "", args := none })],
      client_to_upstream := [([65], [80, 48, 48, 48, 49])],
      tag_counter := 1 }
    [80, 48, 48, 48, 49, 32] (by rfl)
